import Mathlib

/-!
Shallow embedding of bedup's `tracking.py` (btrfs deduplication tracker):
the scanner (`track_updated_files`), the grouper (`windowed_query`,
`dedup_tracked`) and the deduper (`dedup_tracked1`).  Database rows are
modelled as Lean structures; the kernel and filesystem environment
(path lookup, open, fstat, hashing, cloning) are explicit oracle
functions, so every run of the embedded code is a pure computation.
-/

namespace Bedup

/-! ## Database rows -/

/-- A row of the `inode` table as seen by the grouper and by
`clear_updates`: volume id, inode number, size and the pending-update
flag. -/
structure InodeR where
  vol_id : Nat
  ino : Nat
  size : Nat
  has_updates : Bool
deriving Repr, DecidableEq

/-- A per-volume `inode` row as maintained by the scanner
`track_updated_files` (the volume is fixed, so only `ino`, `size` and
`has_updates` matter). -/
structure IRow where
  ino : Nat
  size : Nat
  has_updates : Bool
deriving Repr, DecidableEq

/-- The persistent attributes of a `volume` row that
`track_updated_files` reads and writes. -/
structure VolR where
  size_cutoff : Nat
  last_tracked_generation : Nat
  last_tracked_size_cutoff : Option Nat
deriving Repr, DecidableEq

/-! ## Scanner: `track_updated_files` (tracking.py lines 278-390) -/

/-- `stat.S_ISREG`: the mode word denotes a regular file. -/
def S_ISREG (mode : Nat) : Bool := mode &&& 0o170000 == 0o100000

/-- The only tree-search record type the scanner consumes. -/
def BTRFS_INODE_ITEM_KEY : Nat := 1

/-- A record returned by the TREE_SEARCH ioctl, reduced to the search
header fields and inode-item payload fields that the scanner reads. -/
structure TreeRecord where
  rtype : Nat
  objectid : Nat
  inode_generation : Nat
  size : Nat
  mode : Nat
deriving Repr, DecidableEq

/-- Lines 282-286: `min_generation` is `last_tracked_generation + 1`
when `last_tracked_size_cutoff is not None` and it is at most the
current `size_cutoff`, and `0` otherwise. -/
def minGenerationOf (vol : VolR) : Nat :=
  match vol.last_tracked_size_cutoff with
  | some s => if s ≤ vol.size_cutoff then vol.last_tracked_generation + 1 else 0
  | none => 0

/-- Python truthiness of the optional cutoff: line 349 tests
`vol.last_tracked_size_cutoff and ...`, so both `None` and `0` are
falsy. -/
def truthyCutoff : Option Nat → Bool
  | none => false
  | some n => decide (n ≠ 0)

/-- Lines 344-357: the per-record skip tests, in source order: size
below cutoff; the generation filters (the stricter one when the
truthy `last_tracked_size_cutoff` is at most the record size); and the
regular-file test. -/
def recordSkipped (vol : VolR) (minGen : Nat) (r : TreeRecord) : Bool :=
  decide (r.size < vol.size_cutoff) ||
  (if truthyCutoff vol.last_tracked_size_cutoff
      && decide (vol.last_tracked_size_cutoff.getD 0 ≤ r.size)
   then decide (r.inode_generation ≤ vol.last_tracked_generation)
   else decide (r.inode_generation < minGen)) ||
  !(S_ISREG r.mode)

/-- Lines 359-362: `get_or_create` on `(vol, ino)` followed by setting
`size` and `has_updates = True`. -/
def upsert (db : List IRow) (ino size : Nat) : List IRow :=
  if db.any (fun i => i.ino == ino) then
    db.map (fun i => if i.ino == ino then { i with size := size, has_updates := true } else i)
  else
    db ++ [⟨ino, size, true⟩]

/-- `sess.delete(inode)`: removes the row for an inode number. -/
def deleteRow (db : List IRow) (ino : Nat) : List IRow :=
  db.filter (fun i => i.ino != ino)

/-- The effect of one TREE_SEARCH record on the inode table (lines
338-373).  `lookupOk` is the `lookup_ino_path_one` oracle: when the
path lookup fails, a freshly created row is expunged (no net change)
and a pre-existing row is deleted. -/
def applyRecord (lookupOk : Nat → Bool) (vol : VolR) (minGen : Nat)
    (db : List IRow) (r : TreeRecord) : List IRow :=
  if r.rtype != BTRFS_INODE_ITEM_KEY then db
  else if recordSkipped vol minGen r then db
  else if lookupOk r.objectid then upsert db r.objectid r.size
  else if db.any (fun i => i.ino == r.objectid) then deleteRow db r.objectid
  else db

/-- `track_updated_files` (lines 278-390): compute the watermark, bail
out when it exceeds the volume root generation captured at scan start
(`topGen`), otherwise fold the records and record the new watermark.
The list of records stands for everything the iterated TREE_SEARCH
ioctl returned. -/
def track_updated_files (topGen : Nat) (records : List TreeRecord)
    (lookupOk : Nat → Bool) (vol : VolR) (db : List IRow) : VolR × List IRow :=
  let minGen := minGenerationOf vol
  if minGen > topGen then (vol, db)
  else
    ({ vol with last_tracked_generation := topGen,
                last_tracked_size_cutoff := some vol.size_cutoff },
     records.foldl (applyRecord lookupOk vol minGen) db)

/-- The skip predicate in the words of the claim: size below cutoff;
or, when `last_tracked_size_cutoff` is non-null and the size is at
least it, generation not strictly above `last_tracked_generation`; or,
otherwise, generation below `min_gen`; or a non-regular mode. -/
def specSkip (vol : VolR) (r : TreeRecord) : Bool :=
  decide (r.size < vol.size_cutoff) ||
  (match vol.last_tracked_size_cutoff with
   | some s =>
     if s ≤ r.size
     then decide (r.inode_generation ≤ vol.last_tracked_generation)
     else decide (r.inode_generation < minGenerationOf vol)
   | none => decide (r.inode_generation < minGenerationOf vol)) ||
  !(S_ISREG r.mode)

/-! ## The grouper's `clear_updates` (tracking.py lines 424-437)

The update statement filters with the Python chained comparison
`window_start >= Inode.size >= window_end`.  Python evaluates this as
`(window_start >= Inode.size) and (Inode.size >= window_end)`; the
left operand is a SQLAlchemy binary expression (the reflected
`Inode.size <= window_start`), and `and` takes its truth value, which
SQLAlchemy clause elements do not define: their truth test raises
`TypeError`.  The model keeps the evaluation steps explicit. -/

/-- A SQLAlchemy binary expression over the `Inode.size` column. -/
inductive SqlExpr where
  | sizeLe (c : Int)
  | sizeGe (c : Int)
deriving Repr, DecidableEq

/-- A Python value that can appear as an operand of `and`: a real
boolean or a SQLAlchemy clause element. -/
inductive PyVal where
  | pybool (b : Bool)
  | sql (e : SqlExpr)
deriving Repr, DecidableEq

/-- Python truth test.  SQLAlchemy clause elements raise
`TypeError("Boolean value of this clause is not defined")`. -/
def pyTruth : PyVal → Except String Bool
  | .pybool b => .ok b
  | .sql _ => .error "TypeError: Boolean value of this clause is not defined"

/-- The chained comparison `ws >= Inode.size >= we`: first operand is
the reflected SQL expression `Inode.size <= ws`; `and` truth-tests it
and, were that defined, would return the second comparison
`Inode.size >= we`. -/
def chainedGeGe (ws we : Int) : Except String PyVal := do
  let r1 := PyVal.sql (.sizeLe ws)
  let t ← pyTruth r1
  if t then pure (PyVal.sql (.sizeGe we)) else pure r1

/-- Evaluating a where-clause operand against a row's size. -/
def pyValPred (v : PyVal) (size : Nat) : Bool :=
  match v with
  | .pybool b => b
  | .sql (.sizeLe c) => decide ((size : Int) ≤ c)
  | .sql (.sizeGe c) => decide (c ≤ (size : Int))

/-- `clear_updates` as defined inside `dedup_tracked` (lines 424-437):
build the where clause (which evaluates the chained comparison), apply
the update, then restore `has_updates` on the skipped inodes,
identified by `(vol_id, ino)`. -/
def clear_updates (vol_ids : List Nat) (skipped : List (Nat × Nat))
    (ws we : Int) (db : List InodeR) : Except String (List InodeR) := do
  let cond ← chainedGeGe ws we
  let db1 := db.map (fun i =>
    if vol_ids.contains i.vol_id && pyValPred cond i.size then
      { i with has_updates := false } else i)
  let db2 := db1.map (fun i =>
    if skipped.contains (i.vol_id, i.ino) then { i with has_updates := true } else i)
  pure db2

/-! ## `dedup_tracked` window start (tracking.py lines 439-450) -/

/-- Modelled from the spec: `Commonality1` (from `comm_mappings` in
model.py, which is not among the sources): the distinct sizes shared
by at least two inodes of the given volume set. -/
def comm1Sizes (vol_ids : List Nat) (db : List InodeR) : List Nat :=
  (((db.filter (fun i => vol_ids.contains i.vol_id)).map (fun i => i.size)).dedup).filter
    (fun s =>
      2 ≤ ((db.filter (fun i => vol_ids.contains i.vol_id)).map (fun i => i.size)).count s)

/-- Line 445: `sess.query(Inode).order_by(-Inode.size).first().size`.
The query ranges over the whole inode table, with no volume filter. -/
def windowStartInit (db : List InodeR) : Option Nat :=
  match db.map (fun i => i.size) with
  | [] => none
  | x :: xs => some (xs.foldl max x)

/-- The quantity named by the claim: the maximum `Inode.size` over the
inodes of the given volume set only. -/
def volsetMaxSize (vol_ids : List Nat) (db : List InodeR) : Option Nat :=
  match (db.filter (fun i => vol_ids.contains i.vol_id)).map (fun i => i.size) with
  | [] => none
  | x :: xs => some (xs.foldl max x)

/-! ## Deduper: cohort processing in `dedup_tracked1` (lines 455-662) -/

/-- A candidate inode of a commonality cohort, with the transient
volume attributes the deduper consults (`inode.vol.st_dev`,
`inode.vol.size_cutoff`) and the cached `mini_hash`. -/
structure CInode where
  ino : Nat
  vol_id : Nat
  vol_st_dev : Nat
  vol_cutoff : Nat
  has_updates : Bool
  mini_hash : Option Nat
deriving Repr, DecidableEq

/-- Outcome of `lookup_ino_path_one`: success, `ENOENT`, or any other
`IOError`. -/
inductive LookupRes where
  | found
  | enoent
  | fatal
deriving Repr, DecidableEq

/-- Outcome of `fopenat_rw`: success, or one of the three handled
errnos, or any other `IOError`. -/
inductive OpenRes where
  | opened
  | enoent
  | etxtbsy
  | eacces
  | fatal
deriving Repr, DecidableEq

/-- The environment oracles consulted while processing a cohort: path
lookup, read-write open, write-use detection at immutability-lock
time, `fstat` results, `tell()` after the full read, the SHA-1 digest,
bytewise comparison against a source, and the clone ioctl result. -/
structure Env where
  lookup : CInode → LookupRes
  openrw : CInode → OpenRes
  inWriteUse : CInode → Bool
  stIno : CInode → Nat
  stDev : CInode → Nat
  tellSize : CInode → Nat
  digest : CInode → Nat
  cmpEq : CInode → CInode → Bool
  cloneOk : CInode → CInode → Bool

/-- Result of the per-inode open loop: rows deleted for vanished
inodes, inodes skipped on handled open errors, and the files opened,
each in traversal order. -/
structure OpenOut where
  deleted : List CInode
  skipped : List CInode
  opened : List CInode
deriving Repr, DecidableEq

/-- The per-inode open phase (lines 547-586): path lookup `ENOENT`
deletes the row; open `ENOENT`, `ETXTBSY` and `EACCES` skip the inode;
any other error propagates. -/
def openPhase (env : Env) : List CInode → Except String OpenOut
  | [] => .ok ⟨[], [], []⟩
  | i :: rest =>
    match env.lookup i with
    | .fatal => .error "IOError"
    | .enoent => do
        let o ← openPhase env rest
        .ok { o with deleted := i :: o.deleted }
    | .found =>
      match env.openrw i with
      | .fatal => .error "IOError"
      | .opened => do
          let o ← openPhase env rest
          .ok { o with opened := i :: o.opened }
      | _ => do
          let o ← openPhase env rest
          .ok { o with skipped := i :: o.skipped }

/-- Result of the hash-and-verify loop: further skips, rows deleted
for shrunk files, and the hash buckets in first-insertion order. -/
structure VerifyOut where
  skipped : List CInode
  deleted : List CInode
  buckets : List (Nat × List CInode)
deriving Repr, DecidableEq

/-- `by_hash[digest].append(afile)` on an association list kept in
first-insertion order. -/
def addBucket (bs : List (Nat × List CInode)) (d : Nat) (i : CInode) :
    List (Nat × List CInode) :=
  if bs.any (fun b => b.1 == d) then
    bs.map (fun b => if b.1 == d then (b.1, b.2 ++ [i]) else b)
  else bs ++ [(d, [i])]

/-- The hash-and-verify loop over the opened files (lines 594-624):
skip files in write use, files whose `fstat` no longer matches the
row, and files whose size changed (deleting the row when the file
shrank below the volume cutoff); bucket the rest by digest. -/
def verifyPhase (env : Env) (size : Nat) (inodes : List CInode) : VerifyOut :=
  inodes.foldl (fun acc i =>
    if env.inWriteUse i then { acc with skipped := acc.skipped ++ [i] }
    else if env.stIno i != i.ino then { acc with skipped := acc.skipped ++ [i] }
    else if env.stDev i != i.vol_st_dev then { acc with skipped := acc.skipped ++ [i] }
    else if env.tellSize i != size then
      (if env.tellSize i < i.vol_cutoff then { acc with deleted := acc.deleted ++ [i] }
       else { acc with skipped := acc.skipped ++ [i] })
    else { acc with buckets := addBucket acc.buckets (env.digest i) i })
    ⟨[], [], []⟩

/-- The destination loop of the clone step (lines 637-652): a failed
bytewise compare trips `assert False`; otherwise a destination is
collected exactly when `clone_data` returns true. -/
def cloneLoop (env : Env) (s : CInode) : List CInode → Except String (List CInode)
  | [] => .ok []
  | d :: ds =>
    if env.cmpEq s d then do
      let r ← cloneLoop env s ds
      .ok (if env.cloneOk s d then d :: r else r)
    else .error "AssertionError"

/-- One hash bucket (lines 626-662): buckets with fewer than two files
are passed over; otherwise the first file is the source, and a
`DedupEvent` with `item_size` the cohort size is written exactly when
some destination clone succeeded, associating the source and the
successful destinations. -/
def processBucket (env : Env) (size : Nat) (b : List CInode) :
    Except String (Option (Nat × List CInode)) :=
  if b.length < 2 then .ok none
  else
    match b with
    | [] => .ok none
    | s :: ds => do
      let succ ← cloneLoop env s ds
      .ok (if succ.isEmpty then none else some (size, s :: succ))

/-- All buckets of a cohort, in bucket order; the committed events are
collected. -/
def processBuckets (env : Env) (size : Nat) :
    List (Nat × List CInode) → Except String (List (Nat × List CInode))
  | [] => .ok []
  | b :: bs => do
      let e ← processBucket env size b.2
      let rest ← processBuckets env size bs
      .ok (match e with
           | none => rest
           | some ev => ev :: rest)

/-- The observable outcome of one Commonality3 cohort: the soft rlimit
afterwards, the skipped inodes, the deleted rows, the files opened and
the dedup events written. -/
structure Comm3Out where
  newSoft : Nat
  skipped : List CInode
  deleted : List CInode
  opened : List CInode
  events : List (Nat × List CInode)
deriving Repr, DecidableEq

/-- The cohort body once the descriptor budget is satisfied: open
phase, verify phase, clone step. -/
def runComm3 (env : Env) (soft : Nat) (size : Nat) (inodes : List CInode) :
    Except String Comm3Out := do
  let o ← openPhase env inodes
  let v := verifyPhase env size o.opened
  let evs ← processBuckets env size v.buckets
  .ok ⟨soft, o.skipped ++ v.skipped, o.deleted ++ v.deleted, o.opened, evs⟩

/-- `ofile_reserved = 7 + len(volset)` (line 418). -/
def ofile_reserved (nvols : Nat) : Nat := 7 + nvols

/-- The descriptor-budget gate and cohort body (lines 530-545):
`ofile_req = 2 * count3 + ofile_reserved`; raise the soft limit to the
requirement when the hard limit permits, otherwise append every cohort
inode that still has `has_updates` to the skipped list and abandon the
cohort before opening anything. -/
def processComm3 (env : Env) (soft hard reserved : Nat) (size : Nat)
    (inodes : List CInode) : Except String Comm3Out :=
  let req := 2 * inodes.length + reserved
  if req > soft then
    if req ≤ hard then runComm3 env req size inodes
    else .ok ⟨soft, inodes.filter (fun i => i.has_updates), [], [], []⟩
  else runComm3 env soft size inodes

/-- Result of the Commonality1 mini-hash loop: deleted rows and the
inodes on which `mini_hash_from_file` was invoked. -/
structure Comm1Out where
  deleted : List CInode
  hashed : List CInode
deriving Repr, DecidableEq

/-- The Commonality1 loop (lines 474-501): every member gets a path
lookup (`ENOENT` deletes the row, other errors propagate) and is then
opened and re-hashed; `mini_hash_from_file` is invoked on every member
that is still reachable, with no test of the cached `mini_hash` (the
source comments: rehash everytime for now).  `mini_hash_from_file`
itself lives in model.py, outside the sources; following the spec it
unconditionally computes and persists the prefix hash. -/
def miniHashPhase (env : Env) : List CInode → Except String Comm1Out
  | [] => .ok ⟨[], []⟩
  | i :: rest =>
    match env.lookup i with
    | .fatal => .error "IOError"
    | .enoent => do
        let o ← miniHashPhase env rest
        .ok { o with deleted := i :: o.deleted }
    | .found => do
        let o ← miniHashPhase env rest
        .ok { o with hashed := i :: o.hashed }

/-! ## `windowed_query` (tracking.py lines 393-407)

The query is ordered by descending size once; each round pulls the
first `per` rows with `attr <= window_start`, yields them, takes the
size of the last yielded row (`el.size`) as the window end, calls
`clear_updates(window_start, window_end)` and restarts one below the
window end; an empty page triggers the final
`clear_updates(window_start, 0)`.  The model records, for every round,
the page together with the `clear_updates` arguments. -/

/-- `WINDOW_SIZE = 200` (line 51). -/
def WINDOW_SIZE : Nat := 200

/-- `query.order_by(-attr)`: the attribute values in descending
order. -/
def sortDesc (l : List Nat) : List Nat := l.insertionSort (fun a b => b ≤ a)

/-- One page: `query.filter(attr <= window_start).limit(per).all()` on
the descending-ordered query. -/
def pageOf (per : Nat) (sizes : List Nat) (ws : Int) : List Nat :=
  ((sortDesc sizes).filter (fun (s : Nat) => decide ((s : Int) ≤ ws))).take per

/-- The full run of `windowed_query` from `ws`: each entry is a page
paired with the `clear_updates(window_start, window_end)` arguments
that follow it; the last entry is the empty page with its final
`clear_updates(window_start, 0)`. -/
def windowedQuery (per : Nat) (sizes : List Nat) (ws : Int) :
    List (List Nat × Int × Int) :=
  match h : pageOf per sizes ws with
  | [] => [([], ws, 0)]
  | x :: xs =>
    (x :: xs, ws, ((x :: xs).getLast (List.cons_ne_nil x xs) : Int)) ::
      windowedQuery per sizes (((x :: xs).getLast (List.cons_ne_nil x xs) : Int) - 1)
termination_by (ws + 1).toNat
decreasing_by
  have hmem : (x :: xs).getLast (List.cons_ne_nil x xs) ∈ pageOf per sizes ws := by
    rw [h]; exact List.getLast_mem (List.cons_ne_nil x xs)
  have hf : (x :: xs).getLast (List.cons_ne_nil x xs) ∈
      (sortDesc sizes).filter (fun (s : Nat) => decide ((s : Int) ≤ ws)) :=
    List.mem_of_mem_take hmem
  have hle : (((x :: xs).getLast (List.cons_ne_nil x xs) : Nat) : Int) ≤ ws :=
    of_decide_eq_true (List.mem_filter.mp hf).2
  omega

/-- The `clear_updates` argument pairs of a run. -/
def wqCalls (per : Nat) (sizes : List Nat) (ws : Int) : List (Int × Int) :=
  (windowedQuery per sizes ws).map (fun t => t.2)

/-- How many of the inclusive ranges `[end, start]` of a call list
contain `s`. -/
def coverCount (s : Int) (calls : List (Int × Int)) : Nat :=
  (calls.filter (fun c => decide (c.2 ≤ s ∧ s ≤ c.1))).length

/-- An inode of the open phase is fatal when its path lookup raises a
non-`ENOENT` error, or it resolves but the open raises an error other
than the three handled ones. -/
def fatalAt (env : Env) (i : CInode) : Prop :=
  env.lookup i = .fatal ∨ (env.lookup i = .found ∧ env.openrw i = .fatal)

instance (env : Env) (i : CInode) : Decidable (fatalAt env i) := by
  unfold fatalAt; infer_instance

/-! ## Concrete inputs for witnesses and counterexamples -/

/-- A benign environment: every lookup resolves, every open succeeds,
nothing is in write use, `fstat` matches the row, everything compares
equal and clones. -/
def constEnv : Env where
  lookup := fun _ => .found
  openrw := fun _ => .opened
  inWriteUse := fun _ => false
  stIno := fun i => i.ino
  stDev := fun i => i.vol_st_dev
  tellSize := fun _ => 0
  digest := fun _ => 0
  cmpEq := fun _ _ => true
  cloneOk := fun _ _ => true

/-- Three cohort inodes with pending updates. -/
def cA : CInode := ⟨1, 1, 0, 0, true, none⟩

def cB : CInode := ⟨2, 1, 0, 0, true, none⟩

def cC : CInode := ⟨3, 1, 0, 0, true, none⟩

/-- A cohort inode whose `mini_hash` is already cached. -/
def c8i : CInode := ⟨9, 1, 0, 0, true, some 42⟩

/-- Environment where only the inode numbered 2 clones successfully. -/
def env3 : Env := { constEnv with cloneOk := fun _ d => d.ino == 2 }

/-- Environment where inode 1 has vanished at path lookup and inode 2
is a running executable image. -/
def env7 : Env :=
  { constEnv with
      lookup := fun i => if i.ino == 1 then .enoent else .found,
      openrw := fun i => if i.ino == 2 then .etxtbsy else .opened }

/-- Two same-size inodes in volume 1 and a larger inode in volume 2. -/
def c2db : List InodeR := [⟨1, 1, 5, true⟩, ⟨1, 2, 5, true⟩, ⟨2, 3, 10, true⟩]

/-- A volume whose watermark is ahead of the root generation used in
the witness. -/
def c4vol : VolR := ⟨8, 10, some 5⟩

/-- A volume and record for the path-lookup-failure counterexample:
the record passes every filter. -/
def c5vol : VolR := ⟨4, 10, some 4⟩

def c5rec : TreeRecord := ⟨1, 7, 11, 100, 0o100644⟩

def c5db : List IRow := [⟨7, 50, false⟩]

/-- A volume about to run two successive scans. -/
def c9vol : VolR := ⟨8, 3, some 8⟩

instance : IsTotal Nat (fun a b => b ≤ a) := ⟨fun a b => le_total b a⟩

instance : IsTrans Nat (fun a b => b ≤ a) := ⟨fun _ _ _ h1 h2 => le_trans h2 h1⟩

/-! ## Theorems -/

theorem windowedQuery_nil {per : Nat} {sizes : List Nat} {ws : Int}
    (h : pageOf per sizes ws = []) :
    windowedQuery per sizes ws = [([], ws, 0)] := by
  rw [windowedQuery.eq_def]
  split
  · rfl
  · next x xs heq => rw [h] at heq; cases heq

theorem windowedQuery_cons {per : Nat} {sizes : List Nat} {ws : Int}
    {x : Nat} {xs : List Nat} (h : pageOf per sizes ws = x :: xs) :
    windowedQuery per sizes ws =
      (x :: xs, ws, ((x :: xs).getLast (List.cons_ne_nil x xs) : Int)) ::
        windowedQuery per sizes (((x :: xs).getLast (List.cons_ne_nil x xs) : Int) - 1) := by
  rw [windowedQuery.eq_def]
  split
  · next heq => rw [h] at heq; cases heq
  · next y ys heq =>
    rw [h] at heq
    obtain ⟨rfl, rfl⟩ := by simpa using heq
    rfl

/-- C1: `clear_updates(vol_ids, [low, high])` is claimed to clear
`has_updates` exactly on the volume-set inodes with size in the
inclusive range.  The code instead evaluates the Python chained
comparison `window_start >= Inode.size >= window_end`, whose first
comparison is a SQLAlchemy clause element; taking its truth value
raises `TypeError`, so every call fails and no flag is ever cleared. -/
theorem C1_clear_updates_raises :
    clear_updates [1] [] 10 5 [⟨1, 1, 7, true⟩] =
      .error "TypeError: Boolean value of this clause is not defined" := rfl

/-- C4: `min_gen` is `G_prev + 1` exactly when `S_prev` is non-null
and at most `S_cur`, and `0` otherwise; and a scan whose `min_gen`
exceeds the captured root generation changes neither the inode table
nor the volume attributes. -/
theorem C4_watermark (vol : VolR) (topGen : Nat) (records : List TreeRecord)
    (lookupOk : Nat → Bool) (db : List IRow) :
    (minGenerationOf vol =
      if vol.last_tracked_size_cutoff.isSome
          ∧ vol.last_tracked_size_cutoff.getD 0 ≤ vol.size_cutoff
      then vol.last_tracked_generation + 1 else 0)
    ∧ (minGenerationOf vol > topGen →
        track_updated_files topGen records lookupOk vol db = (vol, db)) := by
  constructor
  · unfold minGenerationOf
    cases h : vol.last_tracked_size_cutoff with
    | none => simp [h]
    | some s => by_cases hs : s ≤ vol.size_cutoff <;> simp [h, hs]
  · intro hgt
    unfold track_updated_files
    simp [hgt]

/-- C4 witness: a volume with watermark 11 scanning a root at
generation 3 is a no-op. -/
theorem C4_watermark_witness :
    track_updated_files 3 [] (fun _ => true) c4vol [] = (c4vol, []) :=
  (C4_watermark c4vol 3 [] (fun _ => true) []).2 (by decide)

theorem recordSkipped_eq_specSkip (vol : VolR) (r : TreeRecord) :
    recordSkipped vol (minGenerationOf vol) r = specSkip vol r := by
  unfold recordSkipped specSkip truthyCutoff minGenerationOf
  cases h : vol.last_tracked_size_cutoff with
  | none => rfl
  | some s =>
    by_cases hs0 : s = 0
    · subst hs0
      simp [Nat.lt_succ_iff, Nat.zero_le]
    · have hd : decide (s ≠ 0) = true := by simpa using hs0
      by_cases hss : s ≤ r.size
      · simp [hd, hss]
      · simp [hd, hss]

/-- C5 (amended): with `min_gen` as computed by the scan, the code's
skip test agrees with the claim's conditions (including the subtle
`last_tracked_size_cutoff = 0` truthiness case, which is equivalent);
a record passing all filters is upserted with `has_updates = true` and
the record's size only when its path lookup succeeds; when the lookup
fails, no row for that inode survives and nothing else changes. -/
theorem C5_record_policy (vol : VolR) (lookupOk : Nat → Bool) (db : List IRow)
    (r : TreeRecord) (ht : r.rtype = BTRFS_INODE_ITEM_KEY) :
    (recordSkipped vol (minGenerationOf vol) r = specSkip vol r)
    ∧ (specSkip vol r = true →
        applyRecord lookupOk vol (minGenerationOf vol) db r = db)
    ∧ (specSkip vol r = false → lookupOk r.objectid = true →
        (∃ row ∈ applyRecord lookupOk vol (minGenerationOf vol) db r,
            row.ino = r.objectid ∧ row.size = r.size ∧ row.has_updates = true)
        ∧ ∀ row ∈ applyRecord lookupOk vol (minGenerationOf vol) db r,
            row.ino ≠ r.objectid → row ∈ db)
    ∧ (specSkip vol r = false → lookupOk r.objectid = false →
        (∀ row ∈ applyRecord lookupOk vol (minGenerationOf vol) db r,
            row.ino ≠ r.objectid)
        ∧ ∀ row ∈ applyRecord lookupOk vol (minGenerationOf vol) db r, row ∈ db) := by
  have heq := recordSkipped_eq_specSkip vol r
  have htb : (r.rtype != BTRFS_INODE_ITEM_KEY) = false := by simp [ht]
  refine ⟨heq, ?_, ?_, ?_⟩
  · intro hskip
    unfold applyRecord
    rw [htb, heq, hskip]
    simp
  · intro hskip hlk
    unfold applyRecord
    rw [htb, heq, hskip, hlk]
    simp only [Bool.false_eq_true, if_false, if_true, if_pos rfl]
    unfold upsert
    by_cases hany : db.any (fun i => i.ino == r.objectid)
    · rw [if_pos hany]
      obtain ⟨a, ha, hae⟩ := List.any_eq_true.mp hany
      constructor
      · refine ⟨if a.ino == r.objectid then
            { a with size := r.size, has_updates := true } else a, List.mem_map_of_mem _ ha, ?_⟩
        rw [if_pos hae]
        exact ⟨by simpa using hae, rfl, rfl⟩
      · intro row hrow hne
        obtain ⟨b, hb, hbe⟩ := List.mem_map.mp hrow
        by_cases hbi : b.ino == r.objectid
        · rw [if_pos hbi] at hbe
          exact absurd (hbe ▸ (by simpa using hbi : b.ino = r.objectid)) hne
        · rw [if_neg hbi] at hbe
          exact hbe ▸ hb
    · rw [if_neg hany]
      constructor
      · exact ⟨⟨r.objectid, r.size, true⟩, by simp, rfl, rfl, rfl⟩
      · intro row hrow hne
        rcases List.mem_append.mp hrow with hl | hr
        · exact hl
        · simp only [List.mem_singleton] at hr
          exact absurd (by rw [hr]) hne
  · intro hskip hlk
    unfold applyRecord
    rw [htb, heq, hskip, hlk]
    simp only [Bool.false_eq_true, if_false]
    by_cases hany : db.any (fun i => i.ino == r.objectid)
    · rw [if_pos hany]
      unfold deleteRow
      constructor
      · intro row hrow
        have := (List.mem_filter.mp hrow).2
        simpa using this
      · intro row hrow
        exact (List.mem_filter.mp hrow).1
    · rw [if_neg hany]
      constructor
      · intro row hrow
        have : ¬ (row.ino == r.objectid) = true := by
          intro hcon
          exact hany (List.any_eq_true.mpr ⟨row, hrow, hcon⟩)
        simpa using this
      · intro row hrow
        exact hrow

/-- C5 counterexample: a record passing every filter of the claim, but
whose path lookup fails while a row for its inode number already
exists: the row is deleted instead of upserted, so the claim's
"every record passing all filters is upserted" is false. -/
theorem C5_counterexample :
    specSkip c5vol c5rec = false ∧
    c5rec.rtype = BTRFS_INODE_ITEM_KEY ∧
    applyRecord (fun _ => false) c5vol (minGenerationOf c5vol) c5db c5rec = [] ∧
    ¬ ∃ row ∈ applyRecord (fun _ => false) c5vol (minGenerationOf c5vol) c5db c5rec,
        row.ino = c5rec.objectid ∧ row.has_updates = true := by
  refine ⟨by decide, by decide, by decide, ?_⟩
  intro ⟨row, hrow, h⟩
  have he : applyRecord (fun _ => false) c5vol (minGenerationOf c5vol) c5db c5rec = [] := by
    decide
  rw [he] at hrow
  cases hrow

/-- C5 witness for the amended statement, at the counterexample's
input: the lookup-failure branch deletes the stale row. -/
theorem C5_record_policy_witness :
    (∀ row ∈ applyRecord (fun _ => false) c5vol (minGenerationOf c5vol) c5db c5rec,
        row.ino ≠ c5rec.objectid)
    ∧ ∀ row ∈ applyRecord (fun _ => false) c5vol (minGenerationOf c5vol) c5db c5rec,
        row ∈ c5db :=
  (C5_record_policy c5vol (fun _ => false) c5db c5rec (by decide)).2.2.2 (by decide) rfl

theorem foldl_max_spec (x : Nat) (xs : List Nat) :
    x ≤ xs.foldl max x ∧ (∀ y ∈ xs, y ≤ xs.foldl max x) ∧
      (xs.foldl max x = x ∨ xs.foldl max x ∈ xs) := by
  induction xs generalizing x with
  | nil => simp
  | cons a t ih =>
    simp only [List.foldl_cons]
    obtain ⟨h1, h2, h3⟩ := ih (max x a)
    refine ⟨le_trans (le_max_left x a) h1, ?_, ?_⟩
    · intro y hy
      rcases List.mem_cons.mp hy with rfl | hy2
      · exact le_trans (le_max_right x y) h1
      · exact h2 y hy2
    · rcases h3 with hh | hh
      · rcases max_choice x a with hx | hx
        · left; rw [hh, hx]
        · right; rw [hh, hx]; exact List.mem_cons_self a t
      · right; exact List.mem_cons_of_mem a hh

/-- C2 counterexample: with volume set `[1]`, the database `c2db` has
a Commonality1 size (two inodes of size 5 in volume 1), but the code's
initial window start is the whole-table maximum 10, not the
volume-set maximum 5: the unfiltered
`sess.query(Inode).order_by(-Inode.size).first()` sees volume 2. -/
theorem C2_counterexample :
    comm1Sizes [1] c2db ≠ [] ∧
    windowStartInit c2db = some 10 ∧
    volsetMaxSize [1] c2db = some 5 ∧
    windowStartInit c2db ≠ volsetMaxSize [1] c2db := by decide

/-- C2 (amended): when the Commonality1 sequence is non-empty, the
initial window start is the maximum `Inode.size` over the whole inode
table (every volume of every filesystem in the database), which is in
particular an upper bound for the sizes of the volume-set inodes. -/
theorem C2_window_start (vol_ids : List Nat) (db : List InodeR)
    (h : comm1Sizes vol_ids db ≠ []) :
    ∃ m, windowStartInit db = some m ∧ (∀ i ∈ db, i.size ≤ m) ∧
      ∃ i ∈ db, i.size = m := by
  have hdb : db ≠ [] := by
    intro hnil
    subst hnil
    exact h (by simp [comm1Sizes])
  cases hmap : db.map (fun i => i.size) with
  | nil => exact absurd (List.map_eq_nil_iff.mp hmap) hdb
  | cons x xs =>
    obtain ⟨h1, h2, h3⟩ := foldl_max_spec x xs
    refine ⟨xs.foldl max x, ?_, ?_, ?_⟩
    · unfold windowStartInit
      rw [hmap]
    · intro i hi
      have : i.size ∈ db.map (fun i => i.size) := List.mem_map_of_mem _ hi
      rw [hmap] at this
      rcases List.mem_cons.mp this with hx | hx
      · rw [hx]; exact h1
      · exact h2 _ hx
    · have hmem : xs.foldl max x ∈ db.map (fun i => i.size) := by
        rw [hmap]
        rcases h3 with hh | hh
        · rw [hh]; exact List.mem_cons_self x xs
        · exact List.mem_cons_of_mem x hh
      obtain ⟨i, hi, hie⟩ := List.mem_map.mp hmem
      exact ⟨i, hi, hie⟩

/-- C2 witness for the amended statement, at the counterexample
database. -/
theorem C2_window_start_witness :
    ∃ m, windowStartInit c2db = some m ∧ (∀ i ∈ c2db, i.size ≤ m) ∧
      ∃ i ∈ c2db, i.size = m :=
  C2_window_start [1] c2db (by decide)

theorem cloneLoop_eq_filter (env : Env) (s : CInode) (ds : List CInode)
    (hcmp : ∀ d ∈ ds, env.cmpEq s d = true) :
    cloneLoop env s ds = .ok (ds.filter (fun d => env.cloneOk s d)) := by
  induction ds with
  | nil => rfl
  | cons d t ih =>
    have hd := hcmp d (List.mem_cons_self d t)
    have ht := ih fun x hx => hcmp x (List.mem_cons_of_mem d hx)
    unfold cloneLoop
    rw [if_pos hd, ht]
    show Except.ok _ = _
    rw [List.filter_cons]

/-- C3: for a hash bucket of at least two files whose bytewise
compares all succeed, a dedup event with `item_size` the cohort size
is written exactly when `clone_data` returned true for some
destination, and it associates the source with exactly the successful
destinations, in order. -/
theorem C3_bucket_events (env : Env) (size : Nat) (s : CInode) (ds : List CInode)
    (hds : ds ≠ []) (hcmp : ∀ d ∈ ds, env.cmpEq s d = true) :
    processBucket env size (s :: ds) =
      .ok (if ds.filter (fun d => env.cloneOk s d) = [] then none
           else some (size, s :: ds.filter (fun d => env.cloneOk s d))) := by
  have hlen : ¬ (s :: ds).length < 2 := by
    cases ds with
    | nil => exact absurd rfl hds
    | cons a t => simp [List.length_cons]
  unfold processBucket
  rw [if_neg hlen]
  show (do
    let succ ← cloneLoop env s ds
    Except.ok (if succ.isEmpty then none else some (size, s :: succ))) = _
  rw [cloneLoop_eq_filter env s ds hcmp]
  show Except.ok _ = _
  by_cases hf : ds.filter (fun d => env.cloneOk s d) = []
  · rw [if_pos hf, if_pos (by simpa [List.isEmpty_iff] using hf)]
  · rw [if_neg hf, if_neg (by simpa [List.isEmpty_iff] using hf)]

/-- C3 witness: a bucket `[cA, cB, cC]` where only `cB` clones: one
event at the cohort size associating `cA` and `cB`. -/
theorem C3_bucket_events_witness :
    processBucket env3 100 (cA :: [cB, cC]) =
      .ok (if [cB, cC].filter (fun d => env3.cloneOk cA d) = [] then none
           else some (100, cA :: [cB, cC].filter (fun d => env3.cloneOk cA d))) :=
  C3_bucket_events env3 100 cA [cB, cC] (by decide) (by decide)

/-- C6: the descriptor requirement is `2 * count3 + (7 + nvols)`; a
cohort over the hard limit is abandoned with exactly its
still-flagged inodes marked skipped, nothing opened, nothing deleted
and no event; a cohort over the soft limit but within the hard limit
proceeds with the soft limit raised to exactly the requirement. -/
theorem C6_budget (env : Env) (soft hard nvols size : Nat) (inodes : List CInode)
    (hsh : soft ≤ hard) :
    (hard < 2 * inodes.length + ofile_reserved nvols →
      processComm3 env soft hard (ofile_reserved nvols) size inodes =
        .ok ⟨soft, inodes.filter (fun i => i.has_updates), [], [], []⟩)
    ∧ (soft < 2 * inodes.length + ofile_reserved nvols →
       2 * inodes.length + ofile_reserved nvols ≤ hard →
      processComm3 env soft hard (ofile_reserved nvols) size inodes =
        runComm3 env (2 * inodes.length + ofile_reserved nvols) size inodes) := by
  constructor
  · intro h
    have h1 : 2 * inodes.length + ofile_reserved nvols > soft := by omega
    have h2 : ¬ 2 * inodes.length + ofile_reserved nvols ≤ hard := by omega
    unfold processComm3
    rw [if_pos h1, if_neg h2]
  · intro h1 h2
    unfold processComm3
    rw [if_pos h1, if_pos h2]

/-- C6 witness: one inode, reserved 7 for zero volumes, requirement 9
against hard limit 0: the cohort is abandoned with `cA` skipped. -/
theorem C6_budget_witness :
    processComm3 constEnv 0 0 (ofile_reserved 0) 5 [cA] =
      .ok ⟨0, [cA].filter (fun i => i.has_updates), [], [], []⟩ :=
  (C6_budget constEnv 0 0 0 5 [cA] (by decide)).1 (by decide)

theorem openPhase_ok (env : Env) (inodes : List CInode)
    (h : ∀ i ∈ inodes, ¬ fatalAt env i) :
    openPhase env inodes = .ok
      ⟨inodes.filter (fun i => decide (env.lookup i = .enoent)),
       inodes.filter (fun i => decide (env.lookup i = .found) &&
         (decide (env.openrw i = .enoent) || decide (env.openrw i = .etxtbsy) ||
          decide (env.openrw i = .eacces))),
       inodes.filter (fun i => decide (env.lookup i = .found) &&
         decide (env.openrw i = .opened))⟩ := by
  induction inodes with
  | nil => rfl
  | cons i rest ih =>
    have hi := h i (List.mem_cons_self i rest)
    have hrest := ih fun x hx => h x (List.mem_cons_of_mem i hx)
    unfold openPhase
    rw [List.filter_cons, List.filter_cons, List.filter_cons]
    cases hl : env.lookup i with
    | fatal => exact absurd (Or.inl hl) hi
    | enoent =>
      rw [hrest]
      simp [hl, Bind.bind, Except.bind]
    | found =>
      cases ho : env.openrw i with
      | fatal => exact absurd (Or.inr ⟨hl, ho⟩) hi
      | opened => rw [hrest]; simp [hl, ho, Bind.bind, Except.bind]
      | enoent => rw [hrest]; simp [hl, ho, Bind.bind, Except.bind]
      | etxtbsy => rw [hrest]; simp [hl, ho, Bind.bind, Except.bind]
      | eacces => rw [hrest]; simp [hl, ho, Bind.bind, Except.bind]

theorem openPhase_error (env : Env) (inodes : List CInode)
    (h : ∃ i ∈ inodes, fatalAt env i) :
    openPhase env inodes = .error "IOError" := by
  induction inodes with
  | nil => obtain ⟨i, hi, _⟩ := h; cases hi
  | cons i rest ih =>
    obtain ⟨j, hj, hjf⟩ := h
    unfold openPhase
    rcases List.mem_cons.mp hj with rfl | hj2
    · rcases hjf with hl | ⟨hl, ho⟩
      · rw [hl]
      · rw [hl, ho]
    · cases hl : env.lookup i with
      | fatal => rfl
      | enoent => rw [ih ⟨j, hj2, hjf⟩]; rfl
      | found =>
        cases ho : env.openrw i with
        | fatal => rfl
        | opened => rw [ih ⟨j, hj2, hjf⟩]; rfl
        | enoent => rw [ih ⟨j, hj2, hjf⟩]; rfl
        | etxtbsy => rw [ih ⟨j, hj2, hjf⟩]; rfl
        | eacces => rw [ih ⟨j, hj2, hjf⟩]; rfl

/-- C7: during the per-inode open phase, the run fails exactly when
some inode hits a non-`ENOENT` lookup error or a non-handled open
error; otherwise the deleted rows are exactly the lookup-`ENOENT`
inodes, the skipped inodes exactly those whose open failed with
`ENOENT`, `ETXTBSY` or `EACCES`, and the opened files exactly the
rest, each in cohort order. -/
theorem C7_open_errors (env : Env) (inodes : List CInode) :
    ((∃ e, openPhase env inodes = .error e) ↔ ∃ i ∈ inodes, fatalAt env i)
    ∧ ((∀ i ∈ inodes, ¬ fatalAt env i) →
        openPhase env inodes = .ok
          ⟨inodes.filter (fun i => decide (env.lookup i = .enoent)),
           inodes.filter (fun i => decide (env.lookup i = .found) &&
             (decide (env.openrw i = .enoent) || decide (env.openrw i = .etxtbsy) ||
              decide (env.openrw i = .eacces))),
           inodes.filter (fun i => decide (env.lookup i = .found) &&
             decide (env.openrw i = .opened))⟩) := by
  constructor
  · constructor
    · intro ⟨e, he⟩
      by_contra hno
      push_neg at hno
      rw [openPhase_ok env inodes hno] at he
      cases he
    · intro hex
      exact ⟨"IOError", openPhase_error env inodes hex⟩
  · exact openPhase_ok env inodes

/-- C7 witness: inode 1 vanished at lookup (row deleted), inode 2 is
a busy executable (skipped), inode 3 opens. -/
theorem C7_open_errors_witness :
    openPhase env7 [cA, cB, cC] = .ok
      ⟨[cA, cB, cC].filter (fun i => decide (env7.lookup i = .enoent)),
       [cA, cB, cC].filter (fun i => decide (env7.lookup i = .found) &&
         (decide (env7.openrw i = .enoent) || decide (env7.openrw i = .etxtbsy) ||
          decide (env7.openrw i = .eacces))),
       [cA, cB, cC].filter (fun i => decide (env7.lookup i = .found) &&
         decide (env7.openrw i = .opened))⟩ :=
  (C7_open_errors env7 [cA, cB, cC]).2 (by decide)

/-- C8 counterexample: a Commonality1 member whose `mini_hash` is
already cached is nevertheless re-hashed by the loop (the code
rehashes every time), so "members whose mini_hash is already recorded
are not re-hashed" is false. -/
theorem C8_counterexample :
    c8i.mini_hash = some 42 ∧
    miniHashPhase constEnv [c8i] = .ok ⟨[], [c8i]⟩ := ⟨rfl, rfl⟩

/-- C8 (amended): the Commonality1 loop invokes `mini_hash_from_file`
on every member whose path lookup succeeds, whether or not a
`mini_hash` is already cached; lookup-`ENOENT` members are deleted. -/
theorem C8_rehash_all (env : Env) (inodes : List CInode)
    (h : ∀ i ∈ inodes, env.lookup i ≠ .fatal) :
    miniHashPhase env inodes = .ok
      ⟨inodes.filter (fun i => decide (env.lookup i = .enoent)),
       inodes.filter (fun i => decide (env.lookup i = .found))⟩ := by
  induction inodes with
  | nil => rfl
  | cons i rest ih =>
    have hi := h i (List.mem_cons_self i rest)
    have hrest := ih fun x hx => h x (List.mem_cons_of_mem i hx)
    unfold miniHashPhase
    rw [List.filter_cons, List.filter_cons]
    cases hl : env.lookup i with
    | fatal => exact absurd hl hi
    | enoent => rw [hrest]; simp [hl, Bind.bind, Except.bind]
    | found => rw [hrest]; simp [hl, Bind.bind, Except.bind]

/-- C8 witness for the amended statement: the cached-hash member is in
the hashed list. -/
theorem C8_rehash_all_witness :
    miniHashPhase constEnv [c8i] = .ok
      ⟨[c8i].filter (fun i => decide (constEnv.lookup i = .enoent)),
       [c8i].filter (fun i => decide (constEnv.lookup i = .found))⟩ :=
  C8_rehash_all constEnv [c8i] (by decide)

theorem track_updated_files_fst (topGen : Nat) (records : List TreeRecord)
    (lookupOk : Nat → Bool) (vol : VolR) (db : List IRow) :
    (track_updated_files topGen records lookupOk vol db).1 =
      if minGenerationOf vol > topGen then vol
      else { vol with last_tracked_generation := topGen,
                      last_tracked_size_cutoff := some vol.size_cutoff } := by
  unfold track_updated_files
  by_cases h : minGenerationOf vol > topGen
  · rw [if_pos h, if_pos h]
  · rw [if_neg h, if_neg h]

/-- C9: a completed scan records the root generation captured at scan
start and the current size cutoff; and across two successive scans,
the second run at a size cutoff at most the first's, with the root
generation not decreasing between them, `last_tracked_generation`
does not decrease. -/
theorem C9_watermark_monotone (v : VolR) (g1 g2 c2 : Nat)
    (rs1 rs2 : List TreeRecord) (lk1 lk2 : Nat → Bool) (db : List IRow)
    (hwm : v.last_tracked_generation ≤ g1) (hg : g1 ≤ g2)
    (_hcut : c2 ≤ v.size_cutoff) :
    (minGenerationOf v ≤ g1 →
      (track_updated_files g1 rs1 lk1 v db).1.last_tracked_generation = g1 ∧
      (track_updated_files g1 rs1 lk1 v db).1.last_tracked_size_cutoff =
        some v.size_cutoff)
    ∧ (track_updated_files g1 rs1 lk1 v db).1.last_tracked_generation ≤
        (track_updated_files g2 rs2 lk2
          { (track_updated_files g1 rs1 lk1 v db).1 with size_cutoff := c2 }
          (track_updated_files g1 rs1 lk1 v db).2).1.last_tracked_generation := by
  have h1 := track_updated_files_fst g1 rs1 lk1 v db
  constructor
  · intro hle
    rw [h1, if_neg (by omega)]
    exact ⟨rfl, rfl⟩
  · set v1 := (track_updated_files g1 rs1 lk1 v db).1 with hv1
    have hv1g : v1.last_tracked_generation ≤ g2 := by
      rw [h1]
      by_cases hc : minGenerationOf v > g1
      · rw [if_pos hc]; omega
      · rw [if_neg hc]; simpa using hg
    have h2 := track_updated_files_fst g2 rs2 lk2 { v1 with size_cutoff := c2 }
      (track_updated_files g1 rs1 lk1 v db).2
    rw [h2]
    by_cases hc2 : minGenerationOf { v1 with size_cutoff := c2 } > g2
    · rw [if_pos hc2]
    · rw [if_neg hc2]
      simpa using hv1g

/-- C9 witness: two scans of `c9vol` at root generations 5 then 9,
with cutoff unchanged. -/
theorem C9_watermark_monotone_witness :
    (track_updated_files 5 [] (fun _ => true) c9vol []).1.last_tracked_generation = 5 ∧
    (track_updated_files 5 [] (fun _ => true) c9vol []).1.last_tracked_generation ≤
      (track_updated_files 9 [] (fun _ => true)
        { (track_updated_files 5 [] (fun _ => true) c9vol []).1 with size_cutoff := 8 }
        (track_updated_files 5 [] (fun _ => true) c9vol []).2).1.last_tracked_generation := by
  have h := C9_watermark_monotone c9vol 5 9 8 [] [] (fun _ => true) (fun _ => true) []
    (by decide) (by decide) (by decide)
  exact ⟨(h.1 (by decide)).1, h.2⟩

theorem pageOf_mem_le {per : Nat} {sizes : List Nat} {ws : Int} {x : Nat}
    (hx : x ∈ pageOf per sizes ws) : (x : Int) ≤ ws := by
  have hf := List.mem_of_mem_take hx
  exact of_decide_eq_true (List.mem_filter.mp hf).2

theorem pageOf_sorted (per : Nat) (sizes : List Nat) (ws : Int) :
    List.Sorted (fun a b => b ≤ a) (pageOf per sizes ws) := by
  have hs : List.Sorted (fun a b => b ≤ a) (sortDesc sizes) :=
    List.sorted_insertionSort _ _
  exact List.Pairwise.sublist (List.take_sublist _ _) (List.Pairwise.filter _ hs)

theorem sorted_getLast_le {l : List Nat} :
    List.Sorted (fun a b => b ≤ a) l → ∀ (hne : l ≠ []) (x : Nat), x ∈ l →
      l.getLast hne ≤ x := by
  induction l with
  | nil => intro _ hne; exact absurd rfl hne
  | cons a t ih =>
    intro hs hne x hx
    rcases List.sorted_cons.mp hs with ⟨ha, ht⟩
    cases t with
    | nil =>
      rcases List.mem_singleton.mp hx with rfl
      simp
    | cons b u =>
      rw [List.getLast_cons (List.cons_ne_nil b u)]
      rcases List.mem_cons.mp hx with rfl | hx2
      · exact ha _ (List.getLast_mem (List.cons_ne_nil b u))
      · exact ih ht (List.cons_ne_nil b u) x hx2

theorem getLastD_irrel {α : Type} {l : List α} (h : l ≠ []) (d d' : α) :
    l.getLastD d = l.getLastD d' := by
  cases l with
  | nil => exact absurd rfl h
  | cons a t => rw [List.getLastD_cons, List.getLastD_cons]

theorem coverCount_nil (s : Int) : coverCount s [] = 0 := rfl

theorem coverCount_cons (s : Int) (c : Int × Int) (l : List (Int × Int)) :
    coverCount s (c :: l) = (if c.2 ≤ s ∧ s ≤ c.1 then 1 else 0) + coverCount s l := by
  unfold coverCount
  rw [List.filter_cons]
  by_cases hc : c.2 ≤ s ∧ s ≤ c.1
  · rw [if_pos (by simpa using hc), if_pos hc, List.length_cons]
    omega
  · rw [if_neg (by simpa using hc), if_neg hc]
    omega

theorem windowedQuery_ne_nil (per : Nat) (sizes : List Nat) (ws : Int) :
    windowedQuery per sizes ws ≠ [] := by
  cases h : pageOf per sizes ws with
  | nil => rw [windowedQuery_nil h]; simp
  | cons x xs => rw [windowedQuery_cons h]; simp

theorem windowedQuery_head (per : Nat) (sizes : List Nat) (ws : Int) :
    ((windowedQuery per sizes ws).headD ([], 0, 0)).2.1 = ws := by
  cases h : pageOf per sizes ws with
  | nil => rw [windowedQuery_nil h]; rfl
  | cons x xs => rw [windowedQuery_cons h]; rfl

theorem windowedQuery_head_cases (per : Nat) (sizes : List Nat) (ws : Int) :
    ∃ p e l, windowedQuery per sizes ws = (p, ws, e) :: l := by
  cases h : pageOf per sizes ws with
  | nil => exact ⟨[], 0, [], windowedQuery_nil h⟩
  | cons x xs => exact ⟨x :: xs, _, _, windowedQuery_cons h⟩

theorem windowedQuery_chain (per : Nat) (sizes : List Nat) (ws : Int) :
    List.Chain' (fun a b => b.2.1 = a.2.2 - 1) (windowedQuery per sizes ws) := by
  induction ws using windowedQuery.induct per sizes with
  | case1 ws h => rw [windowedQuery_nil h]; simp
  | case2 ws x xs h ih =>
    rw [windowedQuery_cons h]
    refine List.chain'_cons'.mpr ⟨?_, ih⟩
    intro b hb
    obtain ⟨p, e, l, hl⟩ := windowedQuery_head_cases per sizes
      (((x :: xs).getLast (List.cons_ne_nil x xs) : Int) - 1)
    rw [hl] at hb
    simp only [List.head?_cons, Option.mem_def, Option.some.injEq] at hb
    rw [← hb]

theorem windowedQuery_last (per : Nat) (sizes : List Nat) (ws : Int) :
    ((windowedQuery per sizes ws).getLastD ([], 0, 0)).1 = [] ∧
    ((windowedQuery per sizes ws).getLastD ([], 0, 0)).2.2 = 0 := by
  induction ws using windowedQuery.induct per sizes with
  | case1 ws h => rw [windowedQuery_nil h]; exact ⟨rfl, rfl⟩
  | case2 ws x xs h ih =>
    rw [windowedQuery_cons h, List.getLastD_cons]
    rw [getLastD_irrel (windowedQuery_ne_nil per sizes
      (((x :: xs).getLast (List.cons_ne_nil x xs) : Int) - 1)) _ (([], 0, 0) : List Nat × Int × Int)]
    exact ih

theorem windowedQuery_pages (per : Nat) (sizes : List Nat) (ws : Int) :
    ∀ t ∈ windowedQuery per sizes ws, ∀ y ∈ t.1,
      t.2.2 ≤ (y : Int) ∧ (y : Int) ≤ t.2.1 := by
  induction ws using windowedQuery.induct per sizes with
  | case1 ws h =>
    rw [windowedQuery_nil h]
    intro t ht y hy
    rcases List.mem_singleton.mp ht with rfl
    cases hy
  | case2 ws x xs h ih =>
    rw [windowedQuery_cons h]
    intro t ht y hy
    rcases List.mem_cons.mp ht with rfl | ht2
    · constructor
      · have hs := pageOf_sorted per sizes ws
        rw [h] at hs
        show (((x :: xs).getLast (List.cons_ne_nil x xs) : Nat) : Int) ≤ (y : Int)
        exact_mod_cast sorted_getLast_le hs (List.cons_ne_nil x xs) y hy
      · have hmem : y ∈ pageOf per sizes ws := by rw [h]; exact hy
        exact pageOf_mem_le hmem
    · exact ih t ht2 y hy

theorem windowedQuery_cover (per : Nat) (sizes : List Nat) (ws : Int) :
    ∀ s : Int, coverCount s ((windowedQuery per sizes ws).map (fun t => t.2)) =
      if 0 ≤ s ∧ s ≤ ws then 1 else 0 := by
  induction ws using windowedQuery.induct per sizes with
  | case1 ws h =>
    intro s
    rw [windowedQuery_nil h]
    simp only [List.map_cons, List.map_nil, coverCount_cons, coverCount_nil]
    omega
  | case2 ws x xs h ih =>
    intro s
    have hwe : (((x :: xs).getLast (List.cons_ne_nil x xs) : Nat) : Int) ≤ ws := by
      have hmem : (x :: xs).getLast (List.cons_ne_nil x xs) ∈ pageOf per sizes ws := by
        rw [h]
        exact List.getLast_mem (List.cons_ne_nil x xs)
      exact pageOf_mem_le hmem
    have h0 : (0 : Int) ≤ (((x :: xs).getLast (List.cons_ne_nil x xs) : Nat) : Int) :=
      Int.natCast_nonneg _
    rw [windowedQuery_cons h, List.map_cons, coverCount_cons, ih s]
    simp only []
    split_ifs <;> omega

/-- C10: the windowed traversal from `W` terminates (it is a total
function), and its `clear_updates` calls tile `[0, W]`: the run is a
non-empty sequence of rounds whose first window starts at `W`, each
next window starts one below the previous window's end, the final
round has an empty page and window end `0`, every yielded row of a
round lies inside that round's inclusive window, and every integer in
`[0, W]` is covered by exactly one `clear_updates` range. -/
theorem C10_windowed_query (per : Nat) (sizes : List Nat) (W : Int) :
    windowedQuery per sizes W ≠ []
    ∧ ((windowedQuery per sizes W).headD ([], 0, 0)).2.1 = W
    ∧ List.Chain' (fun a b => b.2.1 = a.2.2 - 1) (windowedQuery per sizes W)
    ∧ ((windowedQuery per sizes W).getLastD ([], 0, 0)).1 = []
    ∧ ((windowedQuery per sizes W).getLastD ([], 0, 0)).2.2 = 0
    ∧ (∀ t ∈ windowedQuery per sizes W, ∀ y ∈ t.1,
        t.2.2 ≤ (y : Int) ∧ (y : Int) ≤ t.2.1)
    ∧ (∀ s : Int, coverCount s (wqCalls per sizes W) =
        if 0 ≤ s ∧ s ≤ W then 1 else 0) :=
  ⟨windowedQuery_ne_nil per sizes W, windowedQuery_head per sizes W,
   windowedQuery_chain per sizes W, (windowedQuery_last per sizes W).1,
   (windowedQuery_last per sizes W).2, windowedQuery_pages per sizes W,
   windowedQuery_cover per sizes W⟩

/-- C10 witness: on sizes `[5, 5, 3]` with pages of 2 starting at 6,
the calls are `(6,5), (4,3), (2,0)` and the size 3 is covered exactly
once. -/
theorem C10_windowed_query_witness :
    coverCount 3 (wqCalls 2 [5, 5, 3] 6) = 1 := by
  have h := (C10_windowed_query 2 [5, 5, 3] 6).2.2.2.2.2.2 3
  rw [h]
  decide

end Bedup
